import Mathlib

/-!
Verification of the weekly-schedule Timeline subsystem of the
labor-planner frontend (src/utils/schedulingUtils.ts,
src/components/Scheduling/Timeline.tsx, src/components/Scheduling/MachineRow.tsx).

The TypeScript source is shallowly embedded:

* Calendar dates are modelled by their proleptic-Gregorian civil triples
  (year, month, day) and by signed day numbers relative to the Unix epoch
  1970-01-01 (the unit in which the JavaScript `Date` UTC accessors
  `getUTCDay` / `setUTCDate` operate).  The conversion between the two is
  the standard era-based civil calendar codec; `jsGetUTCDay n = (n + 4) % 7`
  because 1970-01-01 was a Thursday.  The model covers years 0..9999, the
  range in which `Date.prototype.toISOString().slice(0, 10)` yields a plain
  zero-padded `YYYY-MM-DD` string.
* JavaScript numbers that the code only ever uses as whole minutes are
  modelled as `Int`/`Nat`; pixel quantities (functions of the fractional
  zoom factor `pixelsPerMinute`) are modelled as `ℚ`.
* Nullable values (`x?: T | null`) are modelled as `Option`.
* The host `new Date(string)` parser that `normalizeDateOnlyIso` falls back
  to for non date-only inputs is kept abstract: the embedding takes it as
  an explicit function argument, and theorems about `normalizeDateOnlyIso`
  hold for every such parser.
-/

/-! ## Civil-calendar model of the JavaScript UTC date arithmetic -/

/-- A civil (proleptic Gregorian) calendar date, as exposed by the
JavaScript `Date` UTC accessors. `month` is 1-based (unlike `getUTCMonth`). -/
structure CivilDate where
  year : Int
  month : Int
  day : Int
  deriving DecidableEq, Repr

/-- Day number (days since 1970-01-01) of a civil date: the era-based
conversion underlying the JavaScript `Date` UTC arithmetic. -/
def daysFromCivil (c : CivilDate) : Int :=
  let y := if c.month ≤ 2 then c.year - 1 else c.year
  let era := y / 400
  let yoe := y - era * 400
  let mp := if 2 < c.month then c.month - 3 else c.month + 9
  let doy := (153 * mp + 2) / 5 + c.day - 1
  let doe := yoe * 365 + yoe / 4 - yoe / 100 + doy
  era * 146097 + doe - 719468

/-- 400-year-era index of a day number. -/
def eraOf (z : Int) : Int := (z + 719468) / 146097

/-- Day-of-era (`0..146096`) of a day number. -/
def doeOf (z : Int) : Int := (z + 719468) % 146097

/-- Year-of-era (`0..399`) of a day number. -/
def yoeOf (z : Int) : Int :=
  (doeOf z - doeOf z / 1460 + doeOf z / 36524 - doeOf z / 146096) / 365

/-- Day-of-year offset within the March-based year of a day number. -/
def doyOf (z : Int) : Int := doeOf z - (365 * yoeOf z + yoeOf z / 4 - yoeOf z / 100)

/-- March-based month index (`0` = March, …, `11` = February). -/
def mpOf (z : Int) : Int := (5 * doyOf z + 2) / 153

/-- Civil date of a day number (days since 1970-01-01); inverse of
`daysFromCivil`. -/
def civilFromDays (z : Int) : CivilDate :=
  let m := if mpOf z < 10 then mpOf z + 3 else mpOf z - 9
  let y := yoeOf z + eraOf z * 400
  ⟨if m ≤ 2 then y + 1 else y, m, doyOf z - (153 * mpOf z + 2) / 5 + 1⟩

/-- `Date.prototype.getUTCDay` (0 = Sunday, …, 6 = Saturday) of a day
number: 1970-01-01 was a Thursday (= 4). -/
def jsGetUTCDay (n : Int) : Int := (n + 4) % 7

/-- Gregorian leap-year test. -/
def isLeapYear (y : Int) : Bool := (y % 4 = 0 && y % 100 ≠ 0) || y % 400 = 0

/-- Number of days in a month, as enforced by the JavaScript ISO date
parser (`new Date("YYYY-MM-DDT00:00:00Z")` is invalid outside it). -/
def daysInMonth (y m : Int) : Int :=
  if m = 2 then (if isLeapYear y then 29 else 28)
  else if m = 4 ∨ m = 6 ∨ m = 9 ∨ m = 11 then 30
  else 31

/-- A civil triple that the JavaScript ISO date-time parser accepts. -/
def CivilDate.valid (c : CivilDate) : Prop :=
  1 ≤ c.month ∧ c.month ≤ 12 ∧ 1 ≤ c.day ∧ c.day ≤ daysInMonth c.year c.month

instance (c : CivilDate) : Decidable c.valid := by
  unfold CivilDate.valid; infer_instance

theorem doeOf_nonneg (z : Int) : 0 ≤ doeOf z := Int.emod_nonneg _ (by norm_num)

theorem doeOf_lt (z : Int) : doeOf z < 146097 := Int.emod_lt_of_pos _ (by norm_num)

set_option maxHeartbeats 8000000 in
/-- Core bounds for the year-of-era extraction in `civilFromDays`: the
year-of-era lies in `[0, 399]` and the day-of-year offset in `[0, 365]`. -/
theorem yoeOf_bounds (z : Int) :
    0 ≤ yoeOf z ∧ yoeOf z ≤ 399 ∧ 0 ≤ doyOf z ∧ doyOf z ≤ 365 := by
  have h0 := doeOf_nonneg z
  have h1 := doeOf_lt z
  unfold doyOf yoeOf
  obtain ⟨a, ha⟩ : ∃ w, doeOf z = w := ⟨_, rfl⟩
  rw [ha] at h0 h1 ⊢
  obtain ⟨g, hg⟩ : ∃ g, a / 36524 = g := ⟨_, rfl⟩
  obtain ⟨e, hee⟩ : ∃ e, a / 1460 = e := ⟨_, rfl⟩
  have hgb : 0 ≤ g ∧ g ≤ 4 := by omega
  have heb : 0 ≤ e ∧ e ≤ 100 := by omega
  obtain ⟨hg1, hg2⟩ := hgb
  obtain ⟨he1, he2⟩ := heb
  interval_cases g <;> interval_cases e <;> omega

set_option maxHeartbeats 8000000 in
/-- The day-of-year offset reaches `365` (a leap day at the end of the
March-based year) only when the civil year closing that March-based year
is a leap year of the 400-year era. -/
theorem doyOf_leap (z : Int) (hdoy : doyOf z = 365) :
    ((yoeOf z + 1) % 4 = 0 ∧ (yoeOf z + 1) % 100 ≠ 0) ∨ (yoeOf z + 1) % 400 = 0 := by
  have h0 := doeOf_nonneg z
  have h1 := doeOf_lt z
  have hb := yoeOf_bounds z
  obtain ⟨hb0, hb1, _, _⟩ := hb
  unfold doyOf yoeOf at *
  obtain ⟨a, ha⟩ : ∃ w, doeOf z = w := ⟨_, rfl⟩
  rw [ha] at h0 h1 hdoy hb0 hb1 ⊢
  obtain ⟨b, hbe⟩ : ∃ b, (a - a / 1460 + a / 36524 - a / 146096) / 365 = b := ⟨_, rfl⟩
  rw [hbe] at hdoy hb0 hb1 ⊢
  interval_cases b <;> omega

/-- The month/day extraction in `civilFromDays` is well-formed: the
March-based month index lies in `[0, 11]` and the day-of-month in
`[1, 31]`, with the finer per-month bounds of the 153-day cycle. -/
theorem mpOf_bounds (z : Int) :
    0 ≤ mpOf z ∧ mpOf z ≤ 11 ∧
    1 ≤ doyOf z - (153 * mpOf z + 2) / 5 + 1 ∧
    doyOf z - (153 * mpOf z + 2) / 5 + 1 ≤ 31 ∧
    (mpOf z = 1 ∨ mpOf z = 3 ∨ mpOf z = 6 ∨ mpOf z = 8 →
      doyOf z - (153 * mpOf z + 2) / 5 + 1 ≤ 30) ∧
    (mpOf z = 11 → doyOf z - (153 * mpOf z + 2) / 5 + 1 = doyOf z - 336) := by
  have hb := yoeOf_bounds z
  obtain ⟨_, _, hd0, hd1⟩ := hb
  unfold mpOf
  obtain ⟨doy, hdoy⟩ : ∃ w, doyOf z = w := ⟨_, rfl⟩
  rw [hdoy] at hd0 hd1 ⊢
  omega

/-- Round trip: converting a day number to a civil date and back is the
identity. -/
theorem daysFromCivil_civilFromDays (z : Int) :
    daysFromCivil (civilFromDays z) = z := by
  obtain ⟨era, hera⟩ : ∃ w, eraOf z = w := ⟨_, rfl⟩
  obtain ⟨yoe, hyoe⟩ : ∃ w, yoeOf z = w := ⟨_, rfl⟩
  obtain ⟨doy, hdoyw⟩ : ∃ w, doyOf z = w := ⟨_, rfl⟩
  obtain ⟨mp, hmp⟩ : ∃ w, mpOf z = w := ⟨_, rfl⟩
  have hy := yoeOf_bounds z
  rw [hyoe, hdoyw] at hy
  obtain ⟨hy0, hy1, hd0, hd1⟩ := hy
  have hm := mpOf_bounds z
  rw [hmp, hdoyw] at hm
  obtain ⟨hm0, hm1, _, _, _, _⟩ := hm
  have hlink : z + 719468 = era * 146097 + (365 * yoe + yoe / 4 - yoe / 100 + doy) := by
    have h1 : doyOf z = doeOf z - (365 * yoeOf z + yoeOf z / 4 - yoeOf z / 100) := rfl
    have h2 : doeOf z = z + 719468 - eraOf z * 146097 := by unfold doeOf eraOf; omega
    rw [hyoe, hdoyw] at h1
    rw [hera] at h2
    omega
  have hmpdef : (5 * doy + 2) / 153 = mp := by
    have h1 : mpOf z = (5 * doyOf z + 2) / 153 := rfl
    rw [hmp, hdoyw] at h1
    omega
  have hciv : civilFromDays z =
      ⟨if (if mp < 10 then mp + 3 else mp - 9) ≤ 2 then yoe + era * 400 + 1
          else yoe + era * 400,
        if mp < 10 then mp + 3 else mp - 9,
        doy - (153 * mp + 2) / 5 + 1⟩ := by
    unfold civilFromDays
    simp only [hmp, hyoe, hera, hdoyw]
  rw [hciv]
  rcases lt_or_le mp 10 with h10 | h10
  · -- month = mp + 3 ∈ [3, 12]
    simp only [if_pos h10, if_neg (by omega : ¬ (mp + 3 ≤ 2))]
    unfold daysFromCivil
    simp only [if_neg (by omega : ¬ (mp + 3 ≤ 2)), if_pos (by omega : (2:Int) < mp + 3)]
    have hmm : mp + 3 - 3 = mp := by omega
    rw [hmm]
    have hi : (yoe + era * 400) / 400 = era := by omega
    rw [hi, Int.add_sub_cancel]
    omega
  · -- month = mp - 9 ∈ [1, 2]
    simp only [if_neg (by omega : ¬ (mp < 10)), if_pos (by omega : mp - 9 ≤ 2)]
    unfold daysFromCivil
    simp only [if_pos (by omega : mp - 9 ≤ 2), if_neg (by omega : ¬ ((2:Int) < mp - 9))]
    have hmm : mp - 9 + 9 = mp := by omega
    rw [hmm]
    have hadd : yoe + era * 400 + 1 - 1 = yoe + era * 400 := by omega
    rw [hadd]
    have hi : (yoe + era * 400) / 400 = era := by omega
    rw [hi, Int.add_sub_cancel]
    omega

/-- The civil date of any day number is a valid calendar date. -/
theorem civilFromDays_valid (z : Int) : (civilFromDays z).valid := by
  obtain ⟨era, hera⟩ : ∃ w, eraOf z = w := ⟨_, rfl⟩
  obtain ⟨yoe, hyoe⟩ : ∃ w, yoeOf z = w := ⟨_, rfl⟩
  obtain ⟨doy, hdoyw⟩ : ∃ w, doyOf z = w := ⟨_, rfl⟩
  obtain ⟨mp, hmp⟩ : ∃ w, mpOf z = w := ⟨_, rfl⟩
  have hy := yoeOf_bounds z
  rw [hyoe, hdoyw] at hy
  obtain ⟨hy0, hy1, hd0, hd1⟩ := hy
  have hm := mpOf_bounds z
  rw [hmp, hdoyw] at hm
  obtain ⟨hm0, hm1, hm2, hm3, hm4, hm5⟩ := hm
  have hleap := doyOf_leap z
  rw [hyoe, hdoyw] at hleap
  unfold civilFromDays CivilDate.valid daysInMonth isLeapYear
  simp only [hmp, hyoe, hera, hdoyw]
  simp only [decide_eq_true_eq, Bool.or_eq_true, Bool.and_eq_true,
    decide_eq_true_iff, bne_iff_ne, ne_eq]
  refine ⟨?_, ?_, ?_, ?_⟩
  · split <;> omega
  · split <;> omega
  · omega
  · -- day ≤ daysInMonth
    rcases lt_or_le mp 10 with h10 | h10
    · -- month = mp + 3 ∈ [3, 12]: never February
      simp only [if_pos h10]
      rw [if_neg (by omega : ¬ (mp + 3 = 2))]
      by_cases h30 : mp + 3 = 4 ∨ mp + 3 = 6 ∨ mp + 3 = 9 ∨ mp + 3 = 11
      · rw [if_pos h30]
        have hmpv : mp = 1 ∨ mp = 3 ∨ mp = 6 ∨ mp = 8 := by omega
        have hd30 := hm4 hmpv
        omega
      · rw [if_neg h30]
        omega
    · -- month = mp - 9 ∈ {1, 2}
      simp only [if_neg (by omega : ¬ (mp < 10))]
      by_cases hfeb : mp = 11
      · -- February, closing civil year of the March-based year
        rw [if_pos (by omega : mp - 9 = 2)]
        simp only [if_pos (by omega : mp - 9 ≤ 2)]
        have h5 := hm5 hfeb
        split
        · -- leap year: 29 days available
          omega
        · -- non-leap year: the day-of-year offset cannot be 365
          rename_i hnl
          by_cases h365 : doy = 365
          · have hlp := hleap h365
            omega
          · omega
      · -- January
        rw [if_neg (by omega : ¬ (mp - 9 = 2)),
          if_neg (by omega : ¬ (mp - 9 = 4 ∨ mp - 9 = 6 ∨ mp - 9 = 9 ∨ mp - 9 = 11))]
        omega

/-- Year bounds: day numbers between 0000-01-01 and 9999-12-31 have civil
years in `[0, 9999]`. -/
theorem civilFromDays_year_bounds (z : Int)
    (hlo : -719468 ≤ z) (hhi : z ≤ 2932896) :
    0 ≤ (civilFromDays z).year ∧ (civilFromDays z).year ≤ 9999 := by
  obtain ⟨era, hera⟩ : ∃ w, eraOf z = w := ⟨_, rfl⟩
  obtain ⟨yoe, hyoe⟩ : ∃ w, yoeOf z = w := ⟨_, rfl⟩
  obtain ⟨doy, hdoyw⟩ : ∃ w, doyOf z = w := ⟨_, rfl⟩
  obtain ⟨mp, hmp⟩ : ∃ w, mpOf z = w := ⟨_, rfl⟩
  have hy := yoeOf_bounds z
  rw [hyoe, hdoyw] at hy
  obtain ⟨hy0, hy1, hd0, hd1⟩ := hy
  have hm := mpOf_bounds z
  rw [hmp, hdoyw] at hm
  obtain ⟨hm0, hm1, hm2, hm3, _, _⟩ := hm
  have hlink : z + 719468 = era * 146097 + (365 * yoe + yoe / 4 - yoe / 100 + doy) := by
    have h1 : doyOf z = doeOf z - (365 * yoeOf z + yoeOf z / 4 - yoeOf z / 100) := rfl
    have h2 : doeOf z = z + 719468 - eraOf z * 146097 := by unfold doeOf eraOf; omega
    rw [hyoe, hdoyw] at h1
    rw [hera] at h2
    omega
  have hera0 : 0 ≤ era := by
    have h2 : eraOf z = (z + 719468) / 146097 := rfl
    rw [hera] at h2
    omega
  have hera1 : era ≤ 24 := by
    have h2 : eraOf z = (z + 719468) / 146097 := rfl
    rw [hera] at h2
    omega
  unfold civilFromDays
  simp only [hmp, hyoe, hera, hdoyw]
  split <;> omega

/-! ## ISO date-only strings (`YYYY-MM-DD`) -/

/-- Decimal digit character for the last decimal digit of `n`. -/
def digitChar (n : Int) : Char := Char.ofNat (48 + (n % 10).toNat)

/-- Numeric value of a digit character. -/
def digitVal (ch : Char) : Int := (ch.toNat : Int) - 48

/-- `toISOString().slice(0, 10)` of a UTC date with year `0..9999`:
the zero-padded `YYYY-MM-DD` rendering. -/
def renderIsoDate (c : CivilDate) : String :=
  ⟨[digitChar (c.year / 1000), digitChar (c.year / 100), digitChar (c.year / 10),
    digitChar c.year, '-', digitChar (c.month / 10), digitChar c.month, '-',
    digitChar (c.day / 10), digitChar c.day]⟩

/-- The date-only test `/^\d\x7b4\x7d-\d\x7b2\x7d-\d\x7b2\x7d$/.exec(input)`
of `normalizeDateOnlyIso`. -/
def isoDateShape (s : String) : Bool :=
  match s.data with
  | [y1, y2, y3, y4, c1, m1, m2, c2, d1, d2] =>
    y1.isDigit && y2.isDigit && y3.isDigit && y4.isDigit && c1 = '-' &&
      m1.isDigit && m2.isDigit && c2 = '-' && d1.isDigit && d2.isDigit
  | _ => false

/-- Reading a `YYYY-MM-DD` string back into a civil triple (no range
validation: this is only the digit decomposition). -/
def parseIsoDate (s : String) : Option CivilDate :=
  if isoDateShape s then
    match s.data with
    | [y1, y2, y3, y4, _, m1, m2, _, d1, d2] =>
      some ⟨1000 * digitVal y1 + 100 * digitVal y2 + 10 * digitVal y3 + digitVal y4,
        10 * digitVal m1 + digitVal m2, 10 * digitVal d1 + digitVal d2⟩
    | _ => none
  else none

theorem digitChar_isDigit (n : Int) : (digitChar n).isDigit = true := by
  unfold digitChar
  obtain ⟨k, hk⟩ : ∃ k, (n % 10).toNat = k := ⟨_, rfl⟩
  rw [hk]
  have h10 : 0 ≤ n % 10 ∧ n % 10 < 10 := ⟨Int.emod_nonneg _ (by norm_num),
    Int.emod_lt_of_pos _ (by norm_num)⟩
  have hk9 : k ≤ 9 := by omega
  interval_cases k <;> decide

theorem digitVal_digitChar (n : Int) : digitVal (digitChar n) = n % 10 := by
  unfold digitVal digitChar
  have h10 : 0 ≤ n % 10 ∧ n % 10 < 10 := ⟨Int.emod_nonneg _ (by norm_num),
    Int.emod_lt_of_pos _ (by norm_num)⟩
  obtain ⟨k, hk1, hk2⟩ : ∃ k : Nat, (n % 10).toNat = k ∧ n % 10 = (k : Int) :=
    ⟨(n % 10).toNat, rfl, by omega⟩
  rw [hk1, hk2]
  have hk9 : k ≤ 9 := by omega
  interval_cases k <;> decide

theorem isoDateShape_renderIsoDate (c : CivilDate) :
    isoDateShape (renderIsoDate c) = true := by
  unfold isoDateShape renderIsoDate
  simp only [digitChar_isDigit, Bool.and_true, Bool.true_and, decide_eq_true_eq]
  simp

theorem parseIsoDate_renderIsoDate (c : CivilDate)
    (hy0 : 0 ≤ c.year) (hy1 : c.year ≤ 9999)
    (hm0 : 0 ≤ c.month) (hm1 : c.month ≤ 99)
    (hd0 : 0 ≤ c.day) (hd1 : c.day ≤ 99) :
    parseIsoDate (renderIsoDate c) = some c := by
  unfold parseIsoDate
  rw [if_pos (isoDateShape_renderIsoDate c)]
  show some (⟨1000 * digitVal (digitChar (c.year / 1000)) +
      100 * digitVal (digitChar (c.year / 100)) +
      10 * digitVal (digitChar (c.year / 10)) + digitVal (digitChar c.year),
    10 * digitVal (digitChar (c.month / 10)) + digitVal (digitChar c.month),
    10 * digitVal (digitChar (c.day / 10)) + digitVal (digitChar c.day)⟩ : CivilDate) =
    some c
  simp only [digitVal_digitChar]
  have hy : 1000 * (c.year / 1000 % 10) + 100 * (c.year / 100 % 10) +
      10 * (c.year / 10 % 10) + c.year % 10 = c.year := by omega
  have hm : 10 * (c.month / 10 % 10) + c.month % 10 = c.month := by omega
  have hd : 10 * (c.day / 10 % 10) + c.day % 10 = c.day := by omega
  rw [hy, hm, hd]

/-! ## Data model (src/types/scheduling, as used by the Timeline code) -/

/-- A machine row entity (`Machine` payload shape). -/
structure Machine where
  machineUuid : Option String
  name : Option String
  description : Option String
  deriving DecidableEq, Repr

/-- `StartingTimeGrain` payload triple; every field may be absent in some
payload variants (`Partial<StartingTimeGrain>`). -/
structure StartingTimeGrain where
  grainIndex : Option Int
  startingMinuteOfDay : Option Int
  date : Option String
  deriving DecidableEq, Repr

/-- Job definition (`ServerJob` payload shape, fields used by the core). -/
structure ServerJob where
  name : Option String
  durationMinutes : Option Int
  assignedTimeGrain : Option StartingTimeGrain
  deriving DecidableEq, Repr

/-- One scheduled job instance (`ScheduledJob` payload shape). -/
structure ScheduledJob where
  scheduledJobUuid : Option String
  job : Option ServerJob
  assignedMachine : Option Machine
  startingTimeGrain : Option StartingTimeGrain
  assignedTimeGrain : Option StartingTimeGrain
  durationInGrains : Option Int
  deriving DecidableEq, Repr

/-- Root schedule payload (`ServerSchedule` shape, fields used by core). -/
structure ServerSchedule where
  weekStartDate : Option String
  machineList : Option (List Machine)
  scheduledJobList : Option (List ScheduledJob)
  deriving DecidableEq, Repr

/-! ## src/utils/schedulingUtils.ts -/

/-- `Math.round(m / g)` for integers with `g > 0` (JavaScript rounds
half up, i.e. `floor(x + 1/2)`). -/
def jsRound (m g : Int) : Int := (2 * m + g) / (2 * g)

/-- JavaScript truthiness of a nullable string (`undefined`, `null` and
`""` are falsy). -/
def jsTruthy (o : Option String) : Bool :=
  match o with
  | none => false
  | some s => s != ""

/-- `normalizeDateOnlyIso` from schedulingUtils.ts.  `hostParse` abstracts
the host `new Date(...)` parse of the (possibly `T00:00:00`-suffixed)
input, yielding the UTC civil triple of the parsed timestamp or `none`
for an Invalid Date; the final
`new Date(Date.UTC(...)).toISOString().slice(0, 10)` is `renderIsoDate`. -/
def normalizeDateOnlyIso (hostParse : String → Option CivilDate) :
    Option String → Option String
  | none => none
  | some s =>
    if s = "" then none
    else if isoDateShape s then some s
    else
      let iso := if s.contains 'T' then s else s ++ "T00:00:00"
      match hostParse iso with
      | none => none
      | some c => some (renderIsoDate c)

/-- Monday-of-week day number: `setUTCDate(getUTCDate() - (day + 6) % 7)`
with `day = getUTCDay()` in `startOfWeekIso`. -/
def startOfWeekDayNumber (n : Int) : Int := n - (jsGetUTCDay n + 6) % 7

/-- `startOfWeekIso` from schedulingUtils.ts: parse the date-only string
at UTC midnight (`new Date(dateIso + "T00:00:00Z")`, which requires a
calendar-valid date), snap back to Monday, re-render. -/
def startOfWeekIso : Option String → Option String
  | none => none
  | some s =>
    if s = "" then none
    else
      match parseIsoDate s with
      | none => none
      | some c =>
        if c.valid then
          some (renderIsoDate (civilFromDays (startOfWeekDayNumber (daysFromCivil c))))
        else none

/-- Two-digit zero-padded rendering (`String(n).padStart(2, "0")` for
`0 ≤ n ≤ 99`). -/
def padTwo (n : Int) : String := ⟨[digitChar (n / 10), digitChar n]⟩

/-- `formatTimeFromMinutes` from schedulingUtils.ts:
`hours = Math.floor(min / 60)`, `mins = min % 60`, zero-padded. -/
def formatTimeFromMinutes (minOfDay : Int) : String :=
  padTwo (minOfDay / 60) ++ ":" ++ padTwo (minOfDay % 60)

/-- Recursive scan of `deriveGrainLength`: first scheduled job with both
`job.durationMinutes` and a positive `durationInGrains` decides. -/
def deriveGrainLengthAux : List ScheduledJob → Int
  | [] => 5
  | sj :: rest =>
    match sj.job.bind ServerJob.durationMinutes, sj.durationInGrains with
    | some minutes, some grains =>
      if 0 < grains then max 1 (jsRound minutes grains) else deriveGrainLengthAux rest
    | some _, none => deriveGrainLengthAux rest
    | none, _ => deriveGrainLengthAux rest

/-- `deriveGrainLength` from schedulingUtils.ts. -/
def deriveGrainLength (schedule : ServerSchedule) : Int :=
  deriveGrainLengthAux (schedule.scheduledJobList.getD [])

/-- ASCII model of `String.prototype.toLowerCase`. -/
def jsCharLower (c : Char) : Char :=
  if 'A' ≤ c ∧ c ≤ 'Z' then Char.ofNat (c.toNat + 32) else c

def jsToLower (s : String) : String := ⟨s.data.map jsCharLower⟩

def jsIsWhitespace (c : Char) : Bool := c = ' ' || c = '\t' || c = '\n' || c = '\r'

/-- Model of `String.prototype.trim`: strip whitespace from both ends. -/
def jsTrim (s : String) : String :=
  ⟨((s.data.dropWhile jsIsWhitespace).reverse.dropWhile jsIsWhitespace).reverse⟩

/-- `normalizeId` from schedulingUtils.ts: `"unassigned"` for nullish ids,
otherwise the lower-cased trimmed string. -/
def normalizeId (id : Option String) : String :=
  match id with
  | none => "unassigned"
  | some s => jsTrim (jsToLower s)

/-- Business window constants (07:00–18:00). -/
def BUSINESS_START_MINUTES : Int := 7 * 60

def BUSINESS_END_MINUTES : Int := 18 * 60

def VISIBLE_MINUTES_PER_DAY : Int := BUSINESS_END_MINUTES - BUSINESS_START_MINUTES

/-- The synthesized pseudo-machine for unassigned jobs. -/
def unassignedMachine : Machine :=
  { machineUuid := some "unassigned", name := some "Unassigned", description := none }

/-- `map.set(key, m)` guarded by `map.has(key)`: the JavaScript `Map`
keeps first-seen insertion order, modelled as an append-only association
list. -/
def insertIfAbsent (acc : List (String × Machine)) (k : String) (m : Machine) :
    List (String × Machine) :=
  if acc.any (fun p => p.1 == k) then acc else acc ++ [(k, m)]

/-- Stable insertion of a machine into a name-sorted list: the new
element goes after all earlier elements whose name is not greater. -/
def insertByName (m : Machine) : List Machine → List Machine
  | [] => [m]
  | x :: xs =>
    if m.name.getD "" < x.name.getD "" then m :: x :: xs else x :: insertByName m xs

/-- Sort by display name (`(a?.name ?? "").localeCompare(b?.name ?? "")`,
modelled as code-point order; `Array.prototype.sort` is stable, modelled
by stable insertion sort). -/
def sortMachinesByName (l : List Machine) : List Machine :=
  l.foldr insertByName []

/-- The `map.set`-if-absent building fold of `buildMachinesFromSchedule`,
for an item type with a key and a machine value. -/
def insFold {α : Type} (key : α → String) (val : α → Machine) (l : List α)
    (acc : List (String × Machine)) : List (String × Machine) :=
  l.foldl (fun acc a => insertIfAbsent acc (key a) (val a)) acc

/-- `sj.assignedMachine ?? { machineUuid: "unassigned", name: "Unassigned" }`. -/
def rawMachineOf (sj : ScheduledJob) : Machine :=
  sj.assignedMachine.getD unassignedMachine

/-- Step 1 of `buildMachinesFromSchedule`: seed the map from
`schedule.machineList`. -/
def machineListPairs (sch : ServerSchedule) : List (String × Machine) :=
  insFold (fun m => normalizeId m.machineUuid) (fun m => m) (sch.machineList.getD []) []

/-- Step 2: insert every scheduled job's assigned (or default) machine. -/
def jobPairs (sch : ServerSchedule) : List (String × Machine) :=
  insFold (fun sj => normalizeId (rawMachineOf sj).machineUuid) rawMachineOf
    (sch.scheduledJobList.getD []) (machineListPairs sch)

/-- `needsUnassigned`: some scheduled job has no truthy
`assignedMachine?.machineUuid`. -/
def needsUnassignedOf (sch : ServerSchedule) : Bool :=
  (sch.scheduledJobList.getD []).any
    (fun sj => ! jsTruthy (sj.assignedMachine.bind Machine.machineUuid))

/-- Step 3: synthesize the `"unassigned"` entry when needed. -/
def machinePairs (sch : ServerSchedule) : List (String × Machine) :=
  if needsUnassignedOf sch && ! (jobPairs sch).any (fun p => p.1 == "unassigned") then
    jobPairs sch ++ [("unassigned", unassignedMachine)]
  else jobPairs sch

/-- `buildMachinesFromSchedule` from schedulingUtils.ts. -/
def buildMachinesFromSchedule (schedule : Option ServerSchedule) : List Machine :=
  match schedule with
  | none => []
  | some sch => sortMachinesByName ((machinePairs sch).map Prod.snd)

/-- `jobsForMachine` from schedulingUtils.ts. -/
def jobsForMachine (all : List ScheduledJob) (machine : Machine) : List ScheduledJob :=
  let key := normalizeId machine.machineUuid
  all.filter (fun sj => normalizeId (sj.assignedMachine.bind Machine.machineUuid) == key)

/-! ## src/components/Scheduling/Timeline.tsx -/

/-- `weekStartIso` memo of Timeline: normalize `schedule.weekStartDate`
and snap to Monday. -/
def weekStartIsoOf (hostParse : String → Option CivilDate)
    (schedule : ServerSchedule) : Option String :=
  match normalizeDateOnlyIso hostParse schedule.weekStartDate with
  | none => none
  | some norm => startOfWeekIso (some norm)

/-- The `days` memo of Timeline for a parsed week start: for each
`i ∈ 0..6`, `new Date(weekStartIso + "T00:00:00Z")` advanced by
`getUTCDate() + i + 7` days, rendered with `toISOString().slice(0, 10)`. -/
def timelineDays (weekStart : CivilDate) : List String :=
  (List.range 7).map
    (fun i => renderIsoDate (civilFromDays (daysFromCivil weekStart + (i : Int) + 7)))

/-- `normalizeGrain` from the `normalizedScheduledJobs` memo of Timeline:
resolve a raw minute value (preferring `startingMinuteOfDay`, else
`Math.round(grainIndex * grainLengthMinutes)`), classify it as absolute
or relative against the business window, and clamp to `[-1440, 1440]`. -/
def normalizeGrain (hostParse : String → Option CivilDate)
    (grainLengthMinutes : Int) (raw : Option StartingTimeGrain) :
    Option StartingTimeGrain :=
  match raw with
  | none => none
  | some r =>
    let dateIso := normalizeDateOnlyIso hostParse r.date
    let minuteOfDay : Option Int :=
      match r.startingMinuteOfDay with
      | some v => some v
      | none =>
        match r.grainIndex with
        | some gi => some (gi * grainLengthMinutes)
        | none => none
    match minuteOfDay with
    | none => none
    | some s0 =>
      let relative1 :=
        if BUSINESS_START_MINUTES ≤ s0 ∧ s0 ≤ BUSINESS_START_MINUTES + VISIBLE_MINUTES_PER_DAY
        then s0 - BUSINESS_START_MINUTES
        else if VISIBLE_MINUTES_PER_DAY < s0 ∧ s0 < BUSINESS_START_MINUTES
        then max 0 (min VISIBLE_MINUTES_PER_DAY (s0 - BUSINESS_START_MINUTES))
        else s0
      let relative := max (-1440) (min 1440 relative1)
      some
        { grainIndex := some
            (match r.grainIndex with
             | some gi => gi
             | none => relative / max 1 grainLengthMinutes),
          startingMinuteOfDay := some relative,
          date := some (dateIso.getD "") }

/-- The `normalizedScheduledJobs` memo of Timeline: per job, look for a
grain in `startingTimeGrain`, `job.assignedTimeGrain`, then
`assignedTimeGrain`; normalize it; keep the original `startingTimeGrain`
when present, else install the normalized grain. -/
def normalizeScheduledJobs (hostParse : String → Option CivilDate)
    (grainLengthMinutes : Int) (scheduledJobs : List ScheduledJob) :
    List ScheduledJob :=
  scheduledJobs.map (fun sj =>
    let candidate :=
      (sj.startingTimeGrain <|> sj.job.bind ServerJob.assignedTimeGrain) <|>
        sj.assignedTimeGrain
    let norm := normalizeGrain hostParse grainLengthMinutes candidate
    { sj with startingTimeGrain := sj.startingTimeGrain <|> norm })

/-- `trackWidth` of Timeline:
`days.length * VISIBLE_MINUTES_PER_DAY * pixelsPerMinute`. -/
def trackWidth (daysLen : Nat) (pixelsPerMinute : ℚ) : ℚ :=
  (daysLen : ℚ) * (VISIBLE_MINUTES_PER_DAY : ℚ) * pixelsPerMinute

/-! ## src/components/Scheduling/MachineRow.tsx -/

/-- `Math.max(0, Math.min(days.length - 1, dayIndex))`. -/
def clampedDayIndexOf (daysLen : Nat) (dayIndex : Int) : Int :=
  max 0 (min ((daysLen : Int) - 1) dayIndex)

/-- The effective duration used by MachineRow:
`sj.job?.durationMinutes ?? (durationInGrains != null ?
durationInGrains * grainLengthMinutes : Math.min(8 * 60,
VISIBLE_MINUTES_PER_DAY))`. -/
def resolveDurationMinutes (sj : ScheduledJob) (grainLengthMinutes : Int) : Int :=
  match sj.job.bind ServerJob.durationMinutes with
  | some m => m
  | none =>
    match sj.durationInGrains with
    | some g => g * grainLengthMinutes
    | none => min (8 * 60) VISIBLE_MINUTES_PER_DAY

/-- `visibleStartRel = Math.max(0, jobStartRel)`. -/
def visibleStartRel (jobStartRel : ℚ) : ℚ := max 0 jobStartRel

/-- `visibleEndRel = Math.min(VISIBLE_MINUTES_PER_DAY, jobEndRel)` with
`jobEndRel = jobStartRel + durationMinutes`. -/
def visibleEndRel (jobStartRel durationMinutes : ℚ) : ℚ :=
  min (VISIBLE_MINUTES_PER_DAY : ℚ) (jobStartRel + durationMinutes)

/-- `left = (dayBase + leftWithinVisible) * pixelsPerMinute` with
`dayBase = clampedDayIndex * VISIBLE_MINUTES_PER_DAY`. -/
def barLeft (daysLen : Nat) (dayIndex : Int) (jobStartRel pixelsPerMinute : ℚ) : ℚ :=
  ((clampedDayIndexOf daysLen dayIndex : ℚ) * (VISIBLE_MINUTES_PER_DAY : ℚ) +
    visibleStartRel jobStartRel) * pixelsPerMinute

/-- Per-job geometry of the MachineRow render loop: clip the job to the
visible business window; when visible, yield the pixel pair
`(left, finalWidth)`.  Returns `none` exactly when the job bar is not
rendered. -/
def placeJob (daysLen : Nat) (dayIndex : Int)
    (startRelative durationMinutes pixelsPerMinute : ℚ) : Option (ℚ × ℚ) :=
  if visibleEndRel startRelative durationMinutes ≤ visibleStartRel startRelative then none
  else
    let left := barLeft daysLen dayIndex startRelative pixelsPerMinute
    let width := max 10
      ((visibleEndRel startRelative durationMinutes - visibleStartRel startRelative) *
        pixelsPerMinute)
    let maxWidth := max 0
      ((daysLen : ℚ) * (VISIBLE_MINUTES_PER_DAY : ℚ) * pixelsPerMinute - left)
    some (left, min width maxWidth)

/-- The start-of-bar clock label of MachineRow:
`formatTimeFromMinutes(BUSINESS_START_MINUTES + visibleStartRel)`. -/
def machineRowStartLabel (startRelative : Int) : String :=
  formatTimeFromMinutes (BUSINESS_START_MINUTES + max 0 startRelative)

/-! ## Geometry lemmas and claims about the layout engine -/

theorem visibleSpanQ : ((VISIBLE_MINUTES_PER_DAY : Int) : ℚ) = 660 := by
  unfold VISIBLE_MINUTES_PER_DAY BUSINESS_END_MINUTES BUSINESS_START_MINUTES
  norm_num

theorem placeJob_isSome_iff (daysLen : Nat) (dayIndex : Int) (s d ppm : ℚ) :
    (placeJob daysLen dayIndex s d ppm).isSome ↔
      visibleStartRel s < visibleEndRel s d := by
  unfold placeJob
  split
  · rename_i h
    simp [not_lt.mpr h]
  · rename_i h
    simp [lt_of_not_le h]

theorem placeJob_eq_some (daysLen : Nat) (dayIndex : Int) (s d ppm : ℚ)
    (h : visibleStartRel s < visibleEndRel s d) :
    placeJob daysLen dayIndex s d ppm =
      some (barLeft daysLen dayIndex s ppm,
        min (max 10 ((visibleEndRel s d - visibleStartRel s) * ppm))
          (max 0 ((daysLen : ℚ) * ((VISIBLE_MINUTES_PER_DAY : Int) : ℚ) * ppm -
            barLeft daysLen dayIndex s ppm))) := by
  unfold placeJob
  rw [if_neg (not_le.mpr h)]

theorem clampedDayIndexOf_bounds (daysLen : Nat) (dayIndex : Int) (h : 0 < daysLen) :
    0 ≤ clampedDayIndexOf daysLen dayIndex ∧
      clampedDayIndexOf daysLen dayIndex ≤ (daysLen : Int) - 1 := by
  unfold clampedDayIndexOf
  omega

/-- For a rendered bar the horizontal slack of the clamped day block is
positive: `barLeft < trackWidth`, so the `Math.max(0, …)` around the
remaining width is the identity. -/
theorem barLeft_lt_trackWidth (daysLen : Nat) (dayIndex : Int) (s d ppm : ℚ)
    (hlen : 0 < daysLen) (hppm : 0 < ppm)
    (h : visibleStartRel s < visibleEndRel s d) :
    barLeft daysLen dayIndex s ppm < trackWidth daysLen ppm := by
  unfold barLeft trackWidth
  rw [visibleSpanQ]
  have hc := clampedDayIndexOf_bounds daysLen dayIndex hlen
  have hc2 : ((clampedDayIndexOf daysLen dayIndex : Int) : ℚ) ≤ (daysLen : ℚ) - 1 := by
    have h2 := hc.2
    exact_mod_cast h2
  have hvs : visibleStartRel s < 660 := by
    have h660 : visibleEndRel s d ≤ 660 := by
      unfold visibleEndRel
      rw [visibleSpanQ]
      exact min_le_left _ _
    linarith
  have hbase : ((clampedDayIndexOf daysLen dayIndex : Int) : ℚ) * 660 + visibleStartRel s <
      (daysLen : ℚ) * 660 := by nlinarith
  exact mul_lt_mul_of_pos_right hbase hppm

/-- C3: clipping of a job to the visible business window. -/
theorem clipping_visible_window_c3 (daysLen : Nat) (dayIndex : Int) (s d ppm : ℚ)
    (hppm : 0 < ppm) :
    visibleStartRel s = max 0 s ∧
    visibleEndRel s d = min ((VISIBLE_MINUTES_PER_DAY : Int) : ℚ) (s + d) ∧
    ((placeJob daysLen dayIndex s d ppm).isSome ↔
      visibleStartRel s < visibleEndRel s d) ∧
    visibleStartRel (-30) = 0 ∧ visibleEndRel (-30) 60 = 30 ∧
    (∃ l w, placeJob 7 0 (-30) 60 ppm = some (l, w) ∧ 0 < w) ∧
    (∀ d2, placeJob daysLen dayIndex 700 d2 ppm = none) := by
  have hvs : visibleStartRel (-30 : ℚ) = 0 := by
    unfold visibleStartRel
    norm_num
  have hve : visibleEndRel (-30 : ℚ) 60 = 30 := by
    unfold visibleEndRel
    rw [visibleSpanQ]
    norm_num
  refine ⟨rfl, rfl, placeJob_isSome_iff daysLen dayIndex s d ppm, hvs, hve, ?_, ?_⟩
  · have hvis : visibleStartRel (-30 : ℚ) < visibleEndRel (-30) 60 := by
      rw [hvs, hve]; norm_num
    have heq := placeJob_eq_some 7 0 (-30) 60 ppm hvis
    refine ⟨_, _, heq, ?_⟩
    have h10 : (0:ℚ) < max 10 ((visibleEndRel (-30) 60 - visibleStartRel (-30)) * ppm) :=
      lt_of_lt_of_le (by norm_num) (le_max_left _ _)
    have hleft : barLeft 7 0 (-30) ppm < (7 : ℚ) * ((VISIBLE_MINUTES_PER_DAY : Int) : ℚ) * ppm := by
      have := barLeft_lt_trackWidth 7 0 (-30) 60 ppm (by norm_num) hppm hvis
      unfold trackWidth at this
      exact_mod_cast this
    have hmw : (0:ℚ) < max 0 ((7 : ℚ) * ((VISIBLE_MINUTES_PER_DAY : Int) : ℚ) * ppm -
        barLeft 7 0 (-30) ppm) := by
      rw [max_eq_right (by linarith)]
      linarith
    exact lt_min h10 hmw
  · intro d2
    unfold placeJob
    rw [if_pos]
    have h1 : visibleEndRel 700 d2 ≤ 660 := by
      unfold visibleEndRel
      rw [visibleSpanQ]
      exact min_le_left _ _
    have h2 : (700:ℚ) ≤ visibleStartRel 700 := by
      unfold visibleStartRel
      exact le_max_right _ _
    linarith

/-- The final width of a rendered bar, in closed form: the
`Math.max(0, …)` clamp is the identity for a rendered bar. -/
theorem placeJob_width_eq (daysLen : Nat) (dayIndex : Int) (s d ppm l w : ℚ)
    (hlen : 0 < daysLen) (hppm : 0 < ppm)
    (h : placeJob daysLen dayIndex s d ppm = some (l, w)) :
    l = barLeft daysLen dayIndex s ppm ∧
    w = min (max 10 ((visibleEndRel s d - visibleStartRel s) * ppm))
      (trackWidth daysLen ppm - l) := by
  have hvis : visibleStartRel s < visibleEndRel s d := by
    by_contra hcon
    unfold placeJob at h
    rw [if_pos (not_lt.mp hcon)] at h
    cases h
  rw [placeJob_eq_some daysLen dayIndex s d ppm hvis] at h
  have hlt := barLeft_lt_trackWidth daysLen dayIndex s d ppm hlen hppm hvis
  simp only [Option.some.injEq, Prod.mk.injEq] at h
  obtain ⟨hl, hw⟩ := h
  subst hl
  constructor
  · rfl
  · have htw : (daysLen : ℚ) * ((VISIBLE_MINUTES_PER_DAY : Int) : ℚ) * ppm =
        trackWidth daysLen ppm := rfl
    rw [← hw, htw, max_eq_right
      (show (0:ℚ) ≤ trackWidth daysLen ppm - barLeft daysLen dayIndex s ppm from
        by linarith)]

/-- C9: width clamping against the track. -/
theorem bar_width_clamped_to_track_c9 (daysLen : Nat) (dayIndex : Int)
    (s d ppm l w : ℚ) (hlen : 0 < daysLen) (hppm : 0 < ppm)
    (h : placeJob daysLen dayIndex s d ppm = some (l, w)) :
    w = min (max 10 ((visibleEndRel s d - visibleStartRel s) * ppm))
      (trackWidth daysLen ppm - l) ∧
    l + w ≤ trackWidth daysLen ppm := by
  obtain ⟨hl, hw⟩ := placeJob_width_eq daysLen dayIndex s d ppm l w hlen hppm h
  refine ⟨hw, ?_⟩
  have h2 : w ≤ trackWidth daysLen ppm - l := hw ▸ min_le_right _ _
  linarith

/-- C9 witness: a concrete rendered bar on the last day of the week,
clamped by the track edge. -/
theorem bar_width_clamped_to_track_c9_witness :
    (0:ℚ) < 7 ∧ (0:ℚ) < 1/2 ∧
    placeJob 7 6 650 60 (1/2) = some (2305, 5) ∧
    ((5:ℚ) = min (max 10 ((visibleEndRel 650 60 - visibleStartRel 650) * (1/2)))
        (trackWidth 7 (1/2) - 2305) ∧
      (2305:ℚ) + 5 ≤ trackWidth 7 (1/2)) := by
  have hp : placeJob 7 6 650 60 (1/2) = some (2305, 5) := by
    simp only [placeJob, visibleStartRel, visibleEndRel, barLeft, clampedDayIndexOf,
      visibleSpanQ]
    norm_num [min_def, max_def]
  exact ⟨by norm_num, by norm_num, hp,
    bar_width_clamped_to_track_c9 7 6 650 60 (1/2) 2305 5 (by norm_num) (by norm_num) hp⟩

/-- C5 counterexample: at the 10px minimum bar width, doubling the zoom
leaves a short bar's rendered width unchanged (10px at both zoom levels),
while the track width strictly grows. -/
theorem zoom_monotonicity_c5_counterexample :
    placeJob 7 0 0 1 1 = some (0, 10) ∧
    placeJob 7 0 0 1 2 = some (0, 10) ∧
    (1:ℚ) < 2 ∧ trackWidth 7 1 < trackWidth 7 2 := by
  have h1 : placeJob 7 0 0 1 1 = some (0, 10) := by
    simp only [placeJob, visibleStartRel, visibleEndRel, barLeft, clampedDayIndexOf,
      visibleSpanQ]
    norm_num [min_def, max_def]
  have h2 : placeJob 7 0 0 1 2 = some (0, 10) := by
    simp only [placeJob, visibleStartRel, visibleEndRel, barLeft, clampedDayIndexOf,
      visibleSpanQ]
    norm_num [min_def, max_def]
  refine ⟨h1, h2, by norm_num, ?_⟩
  unfold trackWidth
  rw [visibleSpanQ]
  norm_num

/-- C5 as amended: raising the zoom strictly increases the track width,
never decreases any rendered bar's width, and strictly increases the
width of every bar whose proportional width at the lower zoom is at or
above the 10px minimum. -/
theorem zoom_monotonicity_c5_amended (daysLen : Nat) (dayIndex : Int)
    (s d p q : ℚ) (hlen : 0 < daysLen) (hp : 0 < p) (hpq : p < q) :
    trackWidth daysLen p < trackWidth daysLen q ∧
    (∀ l1 w1 l2 w2, placeJob daysLen dayIndex s d p = some (l1, w1) →
      placeJob daysLen dayIndex s d q = some (l2, w2) →
      w1 ≤ w2 ∧ (10 ≤ (visibleEndRel s d - visibleStartRel s) * p → w1 < w2)) := by
  have hq : 0 < q := lt_trans hp hpq
  constructor
  · unfold trackWidth
    rw [visibleSpanQ]
    have hdl : (0:ℚ) < (daysLen : ℚ) := by exact_mod_cast hlen
    have hbase : (0:ℚ) < (daysLen : ℚ) * 660 := by positivity
    exact mul_lt_mul_of_pos_left hpq hbase
  · intro l1 w1 l2 w2 h1 h2
    have hvis : visibleStartRel s < visibleEndRel s d := by
      by_contra hcon
      unfold placeJob at h1
      rw [if_pos (not_lt.mp hcon)] at h1
      cases h1
    have hv : 0 < visibleEndRel s d - visibleStartRel s := by linarith
    obtain ⟨hl1, hw1⟩ := placeJob_width_eq daysLen dayIndex s d p l1 w1 hlen hp h1
    obtain ⟨hl2, hw2⟩ := placeJob_width_eq daysLen dayIndex s d q l2 w2 hlen hq h2
    have hslack1 := barLeft_lt_trackWidth daysLen dayIndex s d p hlen hp hvis
    have hslack2 := barLeft_lt_trackWidth daysLen dayIndex s d q hlen hq hvis
    -- the zoom-independent geometric coefficients
    have hbarp : barLeft daysLen dayIndex s p =
        (((clampedDayIndexOf daysLen dayIndex : Int) : ℚ) *
          ((VISIBLE_MINUTES_PER_DAY : Int) : ℚ) + visibleStartRel s) * p := rfl
    have hbarq : barLeft daysLen dayIndex s q =
        (((clampedDayIndexOf daysLen dayIndex : Int) : ℚ) *
          ((VISIBLE_MINUTES_PER_DAY : Int) : ℚ) + visibleStartRel s) * q := rfl
    have htwp : trackWidth daysLen p =
        ((daysLen : ℚ) * ((VISIBLE_MINUTES_PER_DAY : Int) : ℚ)) * p := by
      unfold trackWidth; ring
    have htwq : trackWidth daysLen q =
        ((daysLen : ℚ) * ((VISIBLE_MINUTES_PER_DAY : Int) : ℚ)) * q := by
      unfold trackWidth; ring
    have hcoef : 0 < (daysLen : ℚ) * ((VISIBLE_MINUTES_PER_DAY : Int) : ℚ) -
        (((clampedDayIndexOf daysLen dayIndex : Int) : ℚ) *
          ((VISIBLE_MINUTES_PER_DAY : Int) : ℚ) + visibleStartRel s) := by
      have hlt : barLeft daysLen dayIndex s p < trackWidth daysLen p := hslack1
      rw [hbarp, htwp] at hlt
      nlinarith
    have hrem : trackWidth daysLen p - l1 < trackWidth daysLen q - l2 := by
      rw [hl1, hl2, hbarp, hbarq, htwp, htwq]
      nlinarith
    have hvp : (visibleEndRel s d - visibleStartRel s) * p ≤
        (visibleEndRel s d - visibleStartRel s) * q :=
      mul_le_mul_of_nonneg_left (le_of_lt hpq) (le_of_lt hv)
    constructor
    · rw [hw1, hw2]
      exact min_le_min (max_le_max (le_refl 10) hvp) (le_of_lt hrem)
    · intro h10
      have hvpq : (visibleEndRel s d - visibleStartRel s) * p <
          (visibleEndRel s d - visibleStartRel s) * q :=
        mul_lt_mul_of_pos_left hpq hv
      have hmax1 : max 10 ((visibleEndRel s d - visibleStartRel s) * p) =
          (visibleEndRel s d - visibleStartRel s) * p := max_eq_right h10
      have hmax2 : max 10 ((visibleEndRel s d - visibleStartRel s) * q) =
          (visibleEndRel s d - visibleStartRel s) * q := max_eq_right (by linarith)
      rw [hw1, hw2, hmax1, hmax2]
      apply lt_min
      · exact lt_of_le_of_lt (min_le_left _ _) hvpq
      · exact lt_of_le_of_lt (min_le_right _ _) hrem

/-- C5 amended witness at a concrete schedule geometry and zoom pair. -/
theorem zoom_monotonicity_c5_amended_witness :
    trackWidth 7 1 < trackWidth 7 2 ∧
    (∀ l1 w1 l2 w2, placeJob 7 0 0 60 1 = some (l1, w1) →
      placeJob 7 0 0 60 2 = some (l2, w2) →
      w1 ≤ w2 ∧ (10 ≤ (visibleEndRel 0 60 - visibleStartRel 0) * 1 → w1 < w2)) :=
  zoom_monotonicity_c5_amended 7 0 0 60 1 2 (by norm_num) (by norm_num) (by norm_num)

/-- C3 witness at a concrete zoom factor. -/
theorem clipping_visible_window_c3_witness :
    visibleStartRel (-30) = max 0 (-30 : ℚ) ∧
    visibleEndRel (-30) 60 = min ((VISIBLE_MINUTES_PER_DAY : Int) : ℚ) ((-30) + 60) ∧
    ((placeJob 7 0 (-30) 60 1).isSome ↔ visibleStartRel (-30) < visibleEndRel (-30) 60) ∧
    visibleStartRel (-30) = 0 ∧ visibleEndRel (-30) 60 = 30 ∧
    (∃ l w, placeJob 7 0 (-30) 60 1 = some (l, w) ∧ 0 < w) ∧
    (∀ d2, placeJob 7 0 700 d2 1 = none) :=
  clipping_visible_window_c3 7 0 (-30) 60 1 (by norm_num)

/-! ## Grain derivation (C4) -/

/-- The scan predicate of `deriveGrainLength`: both `job.durationMinutes`
and `durationInGrains` present with `durationInGrains > 0`. -/
def hasGrainPair (sj : ScheduledJob) : Bool :=
  (sj.job.bind ServerJob.durationMinutes).isSome &&
    match sj.durationInGrains with
    | some g => decide (0 < g)
    | none => false

/-- C4: `deriveGrainLength` is decided by the first scheduled job, in
list order, carrying both `job.durationMinutes` and a positive
`durationInGrains` — `max(1, round(minutes / grains))` of that job,
regardless of any other jobs — and defaults to 5 when no such job
exists (in particular for an empty or missing scheduled-job list). -/
theorem derive_grain_first_match_c4 (schedule : ServerSchedule) :
    deriveGrainLength schedule =
      match (schedule.scheduledJobList.getD []).find? hasGrainPair with
      | some sj => max 1 (jsRound ((sj.job.bind ServerJob.durationMinutes).getD 0)
          (sj.durationInGrains.getD 0))
      | none => 5 := by
  unfold deriveGrainLength
  induction schedule.scheduledJobList.getD [] with
  | nil => rfl
  | cons sj rest ih =>
    rcases hjm : sj.job.bind ServerJob.durationMinutes with _ | m <;>
      rcases hg : sj.durationInGrains with _ | g
    · have hp : hasGrainPair sj = false := by simp [hasGrainPair, hjm, hg]
      simp only [deriveGrainLengthAux, hjm, hg, List.find?_cons, hp]
      exact ih
    · have hp : hasGrainPair sj = false := by simp [hasGrainPair, hjm, hg]
      simp only [deriveGrainLengthAux, hjm, hg, List.find?_cons, hp]
      exact ih
    · have hp : hasGrainPair sj = false := by simp [hasGrainPair, hjm, hg]
      simp only [deriveGrainLengthAux, hjm, hg, List.find?_cons, hp]
      exact ih
    · by_cases hg0 : 0 < g
      · have hp : hasGrainPair sj = true := by simp [hasGrainPair, hjm, hg, hg0]
        simp only [deriveGrainLengthAux, hjm, hg, List.find?_cons, hp, if_pos hg0]
        simp [hjm, hg]
      · have hp : hasGrainPair sj = false := by simp [hasGrainPair, hjm, hg, hg0]
        simp only [deriveGrainLengthAux, hjm, hg, List.find?_cons, hp, if_neg hg0]
        exact ih

/-! ## Date-only normalization (C10) -/

theorem isoDateShape_ne_empty (s : String) (h : isoDateShape s = true) : s ≠ "" := by
  intro he
  rw [he] at h
  exact absurd h (by decide)

/-- A date-only-shaped input is returned verbatim by the normalizer. -/
theorem normalizeDateOnlyIso_of_shape (hostParse : String → Option CivilDate)
    (s : String) (h : isoDateShape s = true) :
    normalizeDateOnlyIso hostParse (some s) = some s := by
  simp only [normalizeDateOnlyIso]
  rw [if_neg (isoDateShape_ne_empty s h), if_pos h]

theorem renderIsoDate_ne_empty (c : CivilDate) : renderIsoDate c ≠ "" := by
  intro h
  simpa [renderIsoDate] using congrArg String.data h

/-- C10: `normalizeDateOnlyIso` returns any `^\d\x7b4\x7d-\d\x7b2\x7d-\d\x7b2\x7d$`
input verbatim (no month/day range validation), and is idempotent on
every input, for every host date parser. -/
theorem normalize_date_verbatim_idempotent_c10 (hostParse : String → Option CivilDate)
    (s : String) (x : Option String) (hs : isoDateShape s = true) :
    normalizeDateOnlyIso hostParse (some s) = some s ∧
    normalizeDateOnlyIso hostParse (normalizeDateOnlyIso hostParse x) =
      normalizeDateOnlyIso hostParse x := by
  refine ⟨normalizeDateOnlyIso_of_shape hostParse s hs, ?_⟩
  match x with
  | none => rfl
  | some t =>
    by_cases hte : t = ""
    · subst hte
      rfl
    · by_cases hsh : isoDateShape t = true
      · simp [normalizeDateOnlyIso_of_shape hostParse t hsh]
      · have hform : normalizeDateOnlyIso hostParse (some t) = none ∨
            ∃ c, normalizeDateOnlyIso hostParse (some t) = some (renderIsoDate c) := by
          simp only [normalizeDateOnlyIso]
          rw [if_neg hte, if_neg hsh]
          rcases hostParse (if t.contains 'T' then t else t ++ "T00:00:00") with _ | c
          · exact Or.inl rfl
          · exact Or.inr ⟨c, rfl⟩
        rcases hform with h | ⟨c, h⟩
        · rw [h]
          rfl
        · rw [h, normalizeDateOnlyIso_of_shape hostParse _ (isoDateShape_renderIsoDate c)]

/-- C10 witness: `"2025-99-99"` is returned verbatim (not `null`), and
idempotence at a non-date input, with an inert host parser. -/
theorem normalize_date_verbatim_idempotent_c10_witness :
    normalizeDateOnlyIso (fun _ => none) (some "2025-99-99") = some "2025-99-99" ∧
    normalizeDateOnlyIso (fun _ => none)
        (normalizeDateOnlyIso (fun _ => none) (some "not a date")) =
      normalizeDateOnlyIso (fun _ => none) (some "not a date") :=
  normalize_date_verbatim_idempotent_c10 (fun _ => none) "2025-99-99"
    (some "not a date") (by decide)

/-! ## Time normalization (C1) and the days array (C2) -/

/-- A grain as delivered by the backend with an absolute clock
minute-of-day of 450 (07:30). -/
def grain450 : StartingTimeGrain :=
  { grainIndex := some 6, startingMinuteOfDay := some 450, date := some "2025-11-17" }

/-- A scheduled job whose incoming `startingTimeGrain` carries the
absolute minute 450. -/
def sjAbsolute450 : ScheduledJob :=
  { scheduledJobUuid := some "sj-450", job := none, assignedMachine := none,
    startingTimeGrain := some grain450, assignedTimeGrain := none,
    durationInGrains := none }

/-- C1 (code bug): for a job whose incoming `startingTimeGrain` is
present with the absolute minute 450, the normalization step of Timeline
emits the job with `startingMinuteOfDay` still 450 — `sj.startingTimeGrain
?? norm` keeps the original — even though its own `normalizeGrain`
computes the window-relative minute 30; the rendered start label is then
"14:30", not "07:30". -/
theorem normalization_keeps_absolute_minute_c1 (hostParse : String → Option CivilDate) :
    (normalizeScheduledJobs hostParse 5 [sjAbsolute450]).map
        (fun sj => sj.startingTimeGrain.bind StartingTimeGrain.startingMinuteOfDay) =
      [some 450] ∧
    normalizeGrain hostParse 5 (some grain450) =
      some { grainIndex := some 6, startingMinuteOfDay := some 30,
             date := some "2025-11-17" } ∧
    machineRowStartLabel 450 = "14:30" ∧
    formatTimeFromMinutes (BUSINESS_START_MINUTES + 30) = "07:30" :=
  ⟨rfl, rfl, rfl, rfl⟩

/-- The concrete schedule whose `weekStartDate` is the Monday
2025-11-17. -/
def scheduleWeek1117 : ServerSchedule :=
  { weekStartDate := some "2025-11-17", machineList := none, scheduledJobList := none }

/-- C2 (code bug): the snapped week start of a schedule dated Monday
2025-11-17 is that same Monday, yet the derived `days` array contains
2025-11-24 … 2025-11-30 (the snapped Monday plus 7 … 13 — the
`getUTCDate() + i + 7` offset skips one week), not the Monday plus
0 … 6. -/
theorem timeline_days_skip_one_week_c2 (hostParse : String → Option CivilDate) :
    weekStartIsoOf hostParse scheduleWeek1117 = some "2025-11-17" ∧
    timelineDays ⟨2025, 11, 17⟩ =
      ["2025-11-24", "2025-11-25", "2025-11-26", "2025-11-27", "2025-11-28",
        "2025-11-29", "2025-11-30"] ∧
    timelineDays ⟨2025, 11, 17⟩ ≠
      ["2025-11-17", "2025-11-18", "2025-11-19", "2025-11-20", "2025-11-21",
        "2025-11-22", "2025-11-23"] := by
  refine ⟨?_, by decide, by decide⟩
  have h1 : normalizeDateOnlyIso hostParse scheduleWeek1117.weekStartDate =
      some "2025-11-17" :=
    normalizeDateOnlyIso_of_shape hostParse "2025-11-17" (by decide)
  unfold weekStartIsoOf
  rw [h1]
  decide

/-! ## Machine-map lemmas (C7, C8) -/

theorem insertIfAbsent_mem {acc : List (String × Machine)} {k : String} {m : Machine}
    {p : String × Machine} (h : p ∈ acc) : p ∈ insertIfAbsent acc k m := by
  unfold insertIfAbsent
  split
  · exact h
  · exact List.mem_append_left _ h

theorem insertIfAbsent_key_mem (acc : List (String × Machine)) (k : String) (m : Machine) :
    k ∈ (insertIfAbsent acc k m).map Prod.fst := by
  unfold insertIfAbsent
  split
  · rename_i h
    rw [List.any_eq_true] at h
    obtain ⟨p, hp, he⟩ := h
    have hpk : p.1 = k := by simpa using he
    exact hpk ▸ List.mem_map_of_mem Prod.fst hp
  · simp

theorem insertIfAbsent_keys_nodup {acc : List (String × Machine)} {k : String}
    {m : Machine} (h : (acc.map Prod.fst).Nodup) :
    ((insertIfAbsent acc k m).map Prod.fst).Nodup := by
  unfold insertIfAbsent
  split
  · exact h
  · rename_i hna
    have hk : k ∉ acc.map Prod.fst := by
      intro hmem
      obtain ⟨p, hp, hpk⟩ := List.mem_map.mp hmem
      exact hna (List.any_eq_true.mpr ⟨p, hp, by simpa using hpk⟩)
    simp only [List.map_append, List.map_cons, List.map_nil]
    rw [List.nodup_append]
    refine ⟨h, List.nodup_singleton k, ?_⟩
    intro a ha hb
    have hak : a = k := by simpa using hb
    exact hk (hak ▸ ha)

theorem insertIfAbsent_prop {P : String × Machine → Prop}
    {acc : List (String × Machine)} {k : String} {m : Machine}
    (hacc : ∀ p ∈ acc, P p) (hkm : P (k, m)) :
    ∀ p ∈ insertIfAbsent acc k m, P p := by
  unfold insertIfAbsent
  split
  · exact hacc
  · intro p hp
    rcases List.mem_append.mp hp with h | h
    · exact hacc p h
    · have hp2 : p = (k, m) := by simpa using h
      exact hp2 ▸ hkm

theorem insFold_mem {α : Type} (key : α → String) (val : α → Machine) (l : List α)
    {acc : List (String × Machine)} {p : String × Machine} (h : p ∈ acc) :
    p ∈ insFold key val l acc := by
  induction l generalizing acc with
  | nil => exact h
  | cons a rest ih => exact ih (insertIfAbsent_mem h)

theorem insFold_key_mem_of_acc {α : Type} (key : α → String) (val : α → Machine)
    (l : List α) {acc : List (String × Machine)} {k : String}
    (h : k ∈ acc.map Prod.fst) : k ∈ (insFold key val l acc).map Prod.fst := by
  obtain ⟨p, hp, hpk⟩ := List.mem_map.mp h
  exact hpk ▸ List.mem_map_of_mem Prod.fst (insFold_mem key val l hp)

theorem insFold_key_mem {α : Type} (key : α → String) (val : α → Machine)
    {l : List α} {a : α} (ha : a ∈ l) (acc : List (String × Machine)) :
    key a ∈ (insFold key val l acc).map Prod.fst := by
  induction l generalizing acc with
  | nil => cases ha
  | cons b rest ih =>
    rcases List.mem_cons.mp ha with hab | harest
    · subst hab
      exact insFold_key_mem_of_acc key val rest (insertIfAbsent_key_mem acc (key a) (val a))
    · exact ih harest _

theorem insFold_keys_nodup {α : Type} (key : α → String) (val : α → Machine)
    (l : List α) {acc : List (String × Machine)} (h : (acc.map Prod.fst).Nodup) :
    ((insFold key val l acc).map Prod.fst).Nodup := by
  induction l generalizing acc with
  | nil => exact h
  | cons a rest ih => exact ih (insertIfAbsent_keys_nodup h)

theorem insFold_prop {α : Type} {P : String × Machine → Prop} (key : α → String)
    (val : α → Machine) (l : List α) {acc : List (String × Machine)}
    (hacc : ∀ p ∈ acc, P p) (hl : ∀ a ∈ l, P (key a, val a)) :
    ∀ p ∈ insFold key val l acc, P p := by
  induction l generalizing acc with
  | nil => exact hacc
  | cons a rest ih =>
    exact ih (insertIfAbsent_prop hacc (hl a (List.mem_cons_self a rest)))
      (fun b hb => hl b (List.mem_cons_of_mem a hb))

/-- Every stored pair satisfies the key invariant: the key is the
normalized machine id of the stored machine. -/
theorem machinePairs_inv (sch : ServerSchedule) :
    ∀ p ∈ machinePairs sch, normalizeId p.2.machineUuid = p.1 := by
  have h2 : ∀ p ∈ jobPairs sch, normalizeId p.2.machineUuid = p.1 := by
    apply insFold_prop
    · apply insFold_prop
      · intro p hp
        cases hp
      · intro m _
        rfl
    · intro sj _
      rfl
  unfold machinePairs
  split
  · intro p hp
    rcases List.mem_append.mp hp with h | h
    · exact h2 p h
    · have hp2 : p = ("unassigned", unassignedMachine) := by simpa using h
      subst hp2
      decide
  · exact h2

theorem machinePairs_keys_nodup (sch : ServerSchedule) :
    ((machinePairs sch).map Prod.fst).Nodup := by
  have h2 : ((jobPairs sch).map Prod.fst).Nodup := by
    apply insFold_keys_nodup
    apply insFold_keys_nodup
    simp
  unfold machinePairs
  split
  · rename_i hcond
    have hk : "unassigned" ∉ (jobPairs sch).map Prod.fst := by
      intro hmem
      obtain ⟨p, hp, hpk⟩ := List.mem_map.mp hmem
      rw [Bool.and_eq_true] at hcond
      have hna := hcond.2
      rw [Bool.not_eq_eq_eq_not, Bool.not_true, List.any_eq_false] at hna
      exact (by simpa using hna p hp : ¬ p.1 = "unassigned") hpk
    simp only [List.map_append, List.map_cons, List.map_nil]
    rw [List.nodup_append]
    refine ⟨h2, List.nodup_singleton _, ?_⟩
    intro a ha hb
    have hak : a = "unassigned" := by simpa using hb
    exact hk (hak ▸ ha)
  · exact h2

/-- The machine key used for a scheduled job by the map-building step
agrees with the key used by `jobsForMachine`. -/
theorem rawMachineOf_key (sj : ScheduledJob) :
    normalizeId (rawMachineOf sj).machineUuid =
      normalizeId (sj.assignedMachine.bind Machine.machineUuid) := by
  unfold rawMachineOf
  cases sj.assignedMachine with
  | none => rfl
  | some m => rfl

/-- The key of every scheduled job of the schedule is present in the
machine map. -/
theorem machinePairs_jobKey_mem (sch : ServerSchedule) {sj : ScheduledJob}
    (h : sj ∈ sch.scheduledJobList.getD []) :
    normalizeId (sj.assignedMachine.bind Machine.machineUuid) ∈
      (machinePairs sch).map Prod.fst := by
  have h1 : normalizeId (rawMachineOf sj).machineUuid ∈ (jobPairs sch).map Prod.fst :=
    insFold_key_mem _ _ h _
  rw [rawMachineOf_key] at h1
  unfold machinePairs
  split
  · exact List.mem_map.mp h1 |>.elim
      (fun p hp => hp.2 ▸ List.mem_map_of_mem Prod.fst (List.mem_append_left _ hp.1))
  · exact h1

/-- The key of every machine of the schedule's machine list is present
in the machine map. -/
theorem machinePairs_machineKey_mem (sch : ServerSchedule) {m : Machine}
    (h : m ∈ sch.machineList.getD []) :
    normalizeId m.machineUuid ∈ (machinePairs sch).map Prod.fst := by
  have h1 : normalizeId m.machineUuid ∈ (machineListPairs sch).map Prod.fst :=
    insFold_key_mem _ _ h _
  have h2 : normalizeId m.machineUuid ∈ (jobPairs sch).map Prod.fst :=
    insFold_key_mem_of_acc _ _ _ h1
  unfold machinePairs
  split
  · exact List.mem_map.mp h2 |>.elim
      (fun p hp => hp.2 ▸ List.mem_map_of_mem Prod.fst (List.mem_append_left _ hp.1))
  · exact h2

theorem insertByName_perm (m : Machine) (l : List Machine) :
    (insertByName m l).Perm (m :: l) := by
  induction l with
  | nil => exact List.Perm.refl _
  | cons x xs ih =>
    unfold insertByName
    split
    · exact List.Perm.refl _
    · exact (ih.cons x).trans (List.Perm.swap m x xs)

theorem sortMachinesByName_perm (l : List Machine) :
    (sortMachinesByName l).Perm l := by
  induction l with
  | nil => exact List.Perm.refl _
  | cons x xs ih =>
    unfold sortMachinesByName at *
    exact (insertByName_perm x (xs.foldr insertByName [])).trans (ih.cons x)

/-- Counting machines with a given normalized key in the built machine
list: exactly one when the key is in the map. -/
theorem buildMachines_countP_key (sch : ServerSchedule) (K : String)
    (hmem : K ∈ (machinePairs sch).map Prod.fst) :
    (buildMachinesFromSchedule (some sch)).countP
      (fun m => K == normalizeId m.machineUuid) = 1 := by
  have hperm := sortMachinesByName_perm ((machinePairs sch).map Prod.snd)
  have hsort : (buildMachinesFromSchedule (some sch)).countP
      (fun m => K == normalizeId m.machineUuid) =
      ((machinePairs sch).map Prod.snd).countP
        (fun m => K == normalizeId m.machineUuid) := hperm.countP_eq _
  rw [hsort, List.countP_map]
  have hcong : (machinePairs sch).countP
      ((fun m => K == normalizeId m.machineUuid) ∘ Prod.snd) =
      (machinePairs sch).countP (fun p => K == p.1) := by
    apply List.countP_congr
    intro p hp
    have hinv := machinePairs_inv sch p hp
    simp only [Function.comp_apply, hinv]
  rw [hcong]
  have hnd := machinePairs_keys_nodup sch
  -- count over the key list
  have hkeys : (machinePairs sch).countP (fun p => K == p.1) =
      ((machinePairs sch).map Prod.fst).countP (fun k => K == k) := by
    rw [List.countP_map]
    rfl
  rw [hkeys]
  have hcnt : ((machinePairs sch).map Prod.fst).countP (fun k => K == k) =
      ((machinePairs sch).map Prod.fst).count K := by
    apply List.countP_congr
    intro k _
    simp only [beq_iff_eq]
    exact eq_comm
  rw [hcnt]
  exact List.count_eq_one_of_mem hnd hmem

theorem mem_jobsForMachine {all : List ScheduledJob} {sj : ScheduledJob} {m : Machine} :
    sj ∈ jobsForMachine all m ↔
      sj ∈ all ∧ normalizeId (sj.assignedMachine.bind Machine.machineUuid) =
        normalizeId m.machineUuid := by
  unfold jobsForMachine
  simp [List.mem_filter]

/-- C7: the machine rows partition the scheduled jobs — every scheduled
job of the schedule lands in exactly one machine row's
`jobsForMachine` list, and a job without an assigned machine lands in
the row whose normalized machine key is `"unassigned"`. -/
theorem machine_rows_partition_c7 (sch : ServerSchedule) (sj : ScheduledJob)
    (h : sj ∈ sch.scheduledJobList.getD []) :
    (buildMachinesFromSchedule (some sch)).countP
        (fun m => decide (sj ∈ jobsForMachine (sch.scheduledJobList.getD []) m)) = 1 ∧
    (sj.assignedMachine = none →
      ∀ m ∈ buildMachinesFromSchedule (some sch),
        sj ∈ jobsForMachine (sch.scheduledJobList.getD []) m →
        normalizeId m.machineUuid = "unassigned") := by
  constructor
  · have hcong : (buildMachinesFromSchedule (some sch)).countP
        (fun m => decide (sj ∈ jobsForMachine (sch.scheduledJobList.getD []) m)) =
        (buildMachinesFromSchedule (some sch)).countP
          (fun m => normalizeId (sj.assignedMachine.bind Machine.machineUuid) ==
            normalizeId m.machineUuid) := by
      apply List.countP_congr
      intro m _
      simp [mem_jobsForMachine, h]
    rw [hcong]
    exact buildMachines_countP_key sch _ (machinePairs_jobKey_mem sch h)
  · intro hnone m _ hmem
    have hkey := (mem_jobsForMachine.mp hmem).2
    rw [hnone] at hkey
    simpa using hkey.symm

/-- A job with no assigned machine at all. -/
def sjUnassigned : ScheduledJob :=
  { scheduledJobUuid := some "sj-u", job := none, assignedMachine := none,
    startingTimeGrain := none, assignedTimeGrain := none, durationInGrains := none }

def machineM1 : Machine :=
  { machineUuid := some "M1", name := some "Mill", description := none }

/-- A job assigned to `machineM1`. -/
def sjOnM1 : ScheduledJob :=
  { scheduledJobUuid := some "sj-m1", job := none, assignedMachine := some machineM1,
    startingTimeGrain := none, assignedTimeGrain := none, durationInGrains := none }

/-- A schedule with one explicit machine, a job on it, and one
unassigned job. -/
def scheduleC7 : ServerSchedule :=
  { weekStartDate := none, machineList := some [machineM1],
    scheduledJobList := some [sjOnM1, sjUnassigned] }

/-- C7 witness: the unassigned job of a concrete schedule lands in
exactly one row, the `"unassigned"` one. -/
theorem machine_rows_partition_c7_witness :
    (buildMachinesFromSchedule (some scheduleC7)).countP
        (fun m => decide (sjUnassigned ∈
          jobsForMachine (scheduleC7.scheduledJobList.getD []) m)) = 1 ∧
    (sjUnassigned.assignedMachine = none →
      ∀ m ∈ buildMachinesFromSchedule (some scheduleC7),
        sjUnassigned ∈ jobsForMachine (scheduleC7.scheduledJobList.getD []) m →
        normalizeId m.machineUuid = "unassigned") :=
  machine_rows_partition_c7 scheduleC7 sjUnassigned (by decide)

/-- An explicit machine whose normalized id is already `"unassigned"`
but whose display name differs from `"Unassigned"`. -/
def machineZed : Machine :=
  { machineUuid := some "unassigned", name := some "Zed", description := none }

def scheduleZed : ServerSchedule :=
  { weekStartDate := none, machineList := some [machineZed],
    scheduledJobList := some [sjUnassigned] }

/-- C8 counterexample: with an explicit machine keyed `"unassigned"`
(named "Zed") already present and a scheduled job lacking an assigned
machine, the output contains no
`\x7b machineUuid: "unassigned", name: "Unassigned" \x7d` entry at all —
the claim's second clause fails. -/
theorem machine_dedup_c8_counterexample :
    (∃ sj ∈ scheduleZed.scheduledJobList.getD [], sj.assignedMachine = none) ∧
    buildMachinesFromSchedule (some scheduleZed) = [machineZed] ∧
    machineZed ≠ unassignedMachine ∧
    (buildMachinesFromSchedule (some scheduleZed)).count unassignedMachine = 0 := by
  refine ⟨⟨sjUnassigned, by decide, rfl⟩, by decide, by decide, by decide⟩

/-- C8 as amended: the built machine list never contains two entries
with the same normalized machine key; a machine of the schedule's
machine list yields exactly one entry with its key (even when scheduled
jobs reference it again); and when some scheduled job lacks an assigned
machine, exactly one entry carries the normalized key `"unassigned"`
(the synthesized `\x7b unassigned, Unassigned \x7d` entry when no entry
with that key pre-exists). -/
theorem machine_dedup_c8_amended (sch : ServerSchedule) :
    (buildMachinesFromSchedule (some sch)).Pairwise
      (fun m1 m2 => normalizeId m1.machineUuid ≠ normalizeId m2.machineUuid) ∧
    (∀ m ∈ sch.machineList.getD [],
      (buildMachinesFromSchedule (some sch)).countP
        (fun x => normalizeId m.machineUuid == normalizeId x.machineUuid) = 1) ∧
    ((∃ sj ∈ sch.scheduledJobList.getD [], sj.assignedMachine = none) →
      (buildMachinesFromSchedule (some sch)).countP
        (fun x => "unassigned" == normalizeId x.machineUuid) = 1) := by
  refine ⟨?_, ?_, ?_⟩
  · have hnd := machinePairs_keys_nodup sch
    have hp1 : (machinePairs sch).Pairwise (fun p q => p.1 ≠ q.1) :=
      (List.pairwise_map).mp hnd
    have hp2 : (machinePairs sch).Pairwise
        (fun p q => normalizeId p.2.machineUuid ≠ normalizeId q.2.machineUuid) := by
      refine hp1.imp_of_mem ?_
      intro p q hp hq hne
      rw [machinePairs_inv sch p hp, machinePairs_inv sch q hq]
      exact hne
    have hp3 : ((machinePairs sch).map Prod.snd).Pairwise
        (fun m1 m2 => normalizeId m1.machineUuid ≠ normalizeId m2.machineUuid) :=
      (List.pairwise_map).mpr hp2
    exact ((sortMachinesByName_perm _).pairwise_iff
      (fun hxy => Ne.symm hxy)).mpr hp3
  · intro m hm
    exact buildMachines_countP_key sch _ (machinePairs_machineKey_mem sch hm)
  · rintro ⟨sj, hsj, hnone⟩
    have h1 := machinePairs_jobKey_mem sch hsj
    rw [hnone] at h1
    exact buildMachines_countP_key sch "unassigned" (by simpa using h1)

/-- C8 amended witness at a concrete schedule with a duplicated machine
reference and an unassigned job. -/
theorem machine_dedup_c8_amended_witness :
    (buildMachinesFromSchedule (some scheduleC7)).Pairwise
      (fun m1 m2 => normalizeId m1.machineUuid ≠ normalizeId m2.machineUuid) ∧
    (buildMachinesFromSchedule (some scheduleC7)).countP
      (fun x => normalizeId machineM1.machineUuid == normalizeId x.machineUuid) = 1 ∧
    (buildMachinesFromSchedule (some scheduleC7)).countP
      (fun x => "unassigned" == normalizeId x.machineUuid) = 1 :=
  ⟨(machine_dedup_c8_amended scheduleC7).1,
    (machine_dedup_c8_amended scheduleC7).2.1 machineM1 (by decide),
    (machine_dedup_c8_amended scheduleC7).2.2 ⟨sjUnassigned, by decide, rfl⟩⟩

/-! ## Week snapping (C6) -/

theorem daysInMonth_le (y m : Int) : daysInMonth y m ≤ 31 := by
  unfold daysInMonth
  split
  · split <;> omega
  · split <;> omega

theorem daysInMonth_pos (y m : Int) : 1 ≤ daysInMonth y m := by
  unfold daysInMonth
  split
  · split <;> omega
  · split <;> omega

/-- Day-number range of valid dates with years `1..9999`. -/
theorem daysFromCivil_range (c : CivilDate) (hv : c.valid)
    (hy1 : 1 ≤ c.year) (hy2 : c.year ≤ 9999) :
    -719162 ≤ daysFromCivil c ∧ daysFromCivil c ≤ 2932896 := by
  obtain ⟨hm1, hm2, hd1, hd2⟩ := hv
  have hd31 : c.day ≤ 31 := le_trans hd2 (daysInMonth_le c.year c.month)
  unfold daysFromCivil
  dsimp only
  split <;> split <;> omega

/-- Structural facts of the Monday snap: the snapped day is a Monday, it
is at most the input day, and the input day is within the following 7
days; the snap is idempotent. -/
theorem startOfWeekDayNumber_facts (n : Int) :
    jsGetUTCDay (startOfWeekDayNumber n) = 1 ∧
    startOfWeekDayNumber n ≤ n ∧ n < startOfWeekDayNumber n + 7 ∧
    startOfWeekDayNumber (startOfWeekDayNumber n) = startOfWeekDayNumber n := by
  unfold startOfWeekDayNumber jsGetUTCDay
  omega

theorem parseIsoDate_shape {s : String} {c : CivilDate}
    (hp : parseIsoDate s = some c) : isoDateShape s = true := by
  unfold parseIsoDate at hp
  split at hp
  · assumption
  · cases hp

theorem parseIsoDate_ne_empty {s : String} {c : CivilDate}
    (hp : parseIsoDate s = some c) : s ≠ "" :=
  isoDateShape_ne_empty s (parseIsoDate_shape hp)

/-- Evaluation of `startOfWeekIso` on a parsable, calendar-valid
date-only string. -/
theorem startOfWeekIso_eq {s : String} {c : CivilDate}
    (hp : parseIsoDate s = some c) (hv : c.valid) :
    startOfWeekIso (some s) =
      some (renderIsoDate (civilFromDays (startOfWeekDayNumber (daysFromCivil c)))) := by
  simp only [startOfWeekIso]
  rw [if_neg (parseIsoDate_ne_empty hp), hp]
  show (if c.valid then
      some (renderIsoDate (civilFromDays (startOfWeekDayNumber (daysFromCivil c))))
    else none) =
    some (renderIsoDate (civilFromDays (startOfWeekDayNumber (daysFromCivil c))))
  exact if_pos hv

/-- Re-parsing the rendered civil date of an in-range day number gives
back exactly that civil date. -/
theorem parse_render_civilFromDays {z : Int}
    (hlo : -719468 ≤ z) (hhi : z ≤ 2932896) :
    parseIsoDate (renderIsoDate (civilFromDays z)) = some (civilFromDays z) := by
  have hv := civilFromDays_valid z
  obtain ⟨hm1, hm2, hd1, hd2⟩ := hv
  have hy := civilFromDays_year_bounds z hlo hhi
  have hd31 : (civilFromDays z).day ≤ 31 :=
    le_trans hd2 (daysInMonth_le (civilFromDays z).year (civilFromDays z).month)
  exact parseIsoDate_renderIsoDate (civilFromDays z) hy.1 hy.2 (by omega) (by omega)
    (by omega) (by omega)

/-- C6: for every parsable, calendar-valid date-only string (years
1..9999), the composition `startOfWeekIso ∘ normalizeDateOnlyIso`
returns the rendered Monday of the date's ISO week (the unique Monday
`M` with `M ≤ day < M + 7`); all dates of the same ISO week yield the
same Monday string; and the composition is idempotent on its own
output.  Holds for every host date parser. -/
theorem week_snapping_c6 (hostParse : String → Option CivilDate) (s : String)
    (c : CivilDate) (hp : parseIsoDate s = some c) (hv : c.valid)
    (hy1 : 1 ≤ c.year) (hy2 : c.year ≤ 9999) :
    normalizeDateOnlyIso hostParse (some s) = some s ∧
    startOfWeekIso (normalizeDateOnlyIso hostParse (some s)) =
      some (renderIsoDate (civilFromDays (startOfWeekDayNumber (daysFromCivil c)))) ∧
    (jsGetUTCDay (startOfWeekDayNumber (daysFromCivil c)) = 1 ∧
      startOfWeekDayNumber (daysFromCivil c) ≤ daysFromCivil c ∧
      daysFromCivil c < startOfWeekDayNumber (daysFromCivil c) + 7) ∧
    (∀ s2 c2, parseIsoDate s2 = some c2 → c2.valid →
      startOfWeekDayNumber (daysFromCivil c2) = startOfWeekDayNumber (daysFromCivil c) →
      startOfWeekIso (normalizeDateOnlyIso hostParse (some s2)) =
        startOfWeekIso (normalizeDateOnlyIso hostParse (some s))) ∧
    startOfWeekIso (normalizeDateOnlyIso hostParse
        (startOfWeekIso (normalizeDateOnlyIso hostParse (some s)))) =
      startOfWeekIso (normalizeDateOnlyIso hostParse (some s)) := by
  have hshape := parseIsoDate_shape hp
  have hnorm : normalizeDateOnlyIso hostParse (some s) = some s :=
    normalizeDateOnlyIso_of_shape hostParse s hshape
  have hfacts := startOfWeekDayNumber_facts (daysFromCivil c)
  obtain ⟨hdow, hle, hlt, hidem⟩ := hfacts
  have hrange := daysFromCivil_range c hv hy1 hy2
  have hMrange : -719468 ≤ startOfWeekDayNumber (daysFromCivil c) ∧
      startOfWeekDayNumber (daysFromCivil c) ≤ 2932896 := by
    unfold startOfWeekDayNumber jsGetUTCDay
    omega
  have hcomp : startOfWeekIso (normalizeDateOnlyIso hostParse (some s)) =
      some (renderIsoDate (civilFromDays (startOfWeekDayNumber (daysFromCivil c)))) := by
    rw [hnorm]
    exact startOfWeekIso_eq hp hv
  refine ⟨hnorm, hcomp, ⟨hdow, hle, hlt⟩, ?_, ?_⟩
  · intro s2 c2 hp2 hv2 hsame
    have hnorm2 : normalizeDateOnlyIso hostParse (some s2) = some s2 :=
      normalizeDateOnlyIso_of_shape hostParse s2 (parseIsoDate_shape hp2)
    rw [hnorm, hnorm2, startOfWeekIso_eq hp hv, startOfWeekIso_eq hp2 hv2, hsame]
  · rw [hcomp]
    have hshape2 := isoDateShape_renderIsoDate
      (civilFromDays (startOfWeekDayNumber (daysFromCivil c)))
    rw [normalizeDateOnlyIso_of_shape hostParse _ hshape2]
    have hp2 := parse_render_civilFromDays hMrange.1 hMrange.2
    rw [startOfWeekIso_eq hp2
      (civilFromDays_valid (startOfWeekDayNumber (daysFromCivil c)))]
    rw [daysFromCivil_civilFromDays, hidem]

/-- C6 witness: the Wednesday 2025-11-19 snaps to Monday 2025-11-17;
idempotence and week-stability hold at that concrete date. -/
theorem week_snapping_c6_witness :
    normalizeDateOnlyIso (fun _ => none) (some "2025-11-19") = some "2025-11-19" ∧
    startOfWeekIso (normalizeDateOnlyIso (fun _ => none) (some "2025-11-19")) =
      some (renderIsoDate (civilFromDays
        (startOfWeekDayNumber (daysFromCivil ⟨2025, 11, 19⟩)))) ∧
    (jsGetUTCDay (startOfWeekDayNumber (daysFromCivil ⟨2025, 11, 19⟩)) = 1 ∧
      startOfWeekDayNumber (daysFromCivil ⟨2025, 11, 19⟩) ≤ daysFromCivil ⟨2025, 11, 19⟩ ∧
      daysFromCivil ⟨2025, 11, 19⟩ <
        startOfWeekDayNumber (daysFromCivil ⟨2025, 11, 19⟩) + 7) ∧
    (∀ s2 c2, parseIsoDate s2 = some c2 → c2.valid →
      startOfWeekDayNumber (daysFromCivil c2) =
        startOfWeekDayNumber (daysFromCivil ⟨2025, 11, 19⟩) →
      startOfWeekIso (normalizeDateOnlyIso (fun _ => none) (some s2)) =
        startOfWeekIso (normalizeDateOnlyIso (fun _ => none) (some "2025-11-19"))) ∧
    startOfWeekIso (normalizeDateOnlyIso (fun _ => none)
        (startOfWeekIso (normalizeDateOnlyIso (fun _ => none) (some "2025-11-19")))) =
      startOfWeekIso (normalizeDateOnlyIso (fun _ => none) (some "2025-11-19")) :=
  week_snapping_c6 (fun _ => none) "2025-11-19" ⟨2025, 11, 19⟩ (by decide) (by decide)
    (by decide) (by decide)
